import Mathlib

/-!
Verification of the Prime-Dictation cloud-function pipeline.

JavaScript strings are embedded as `List Char`; handlers become pure
functions from their inputs to the data they write plus explicit effect
traces.  Regex-based text transformations are embedded as structural
recursions with the same scanning semantics as the source regexes.
-/

set_option maxRecDepth 4000

abbrev Str := List Char

abbrev Tok := List Char

/-- Whitespace characters recognised by the JavaScript regex class `\s`
(the variants that can occur in the pipeline's strings). -/
def isWs (c : Char) : Bool :=
  c = ' ' || c = '\t' || c = '\n' || c = '\r' ||
  c = '\x0b' || c = '\x0c' || c.toNat = 0xa0 ||
  c.toNat = 0x2028 || c.toNat = 0x2029 || c.toNat = 0xfeff

/-- The punctuation symbols of the normalizer's tidy-up regexes `[.,!?;:]`. -/
def isPunctSym (c : Char) : Bool :=
  c = '.' || c = ',' || c = '!' || c = '?' || c = ';' || c = ':'

/-- Characters excluded by `[^\s"'\)\]}]` in the space-after-punctuation
regex of `normalizeTranscript`. -/
def isAfterExcluded (c : Char) : Bool :=
  isWs c || c = '"' || c = '\'' || c = ')' || c = ']' || c = '\x7d'

/-- ASCII lower-casing, the fragment of `String.prototype.toLowerCase`
relevant to the normalizer's comparisons against ASCII keywords. -/
def lowCh (c : Char) : Char :=
  if 'A' ≤ c ∧ c ≤ 'Z' then Char.ofNat (c.toNat + 32) else c

def lowerTok (t : Tok) : Tok := t.map lowCh

/-- Strip leading and trailing whitespace (JavaScript `trim`). -/
def trimWs (s : Str) : Str :=
  ((s.dropWhile isWs).reverse.dropWhile isWs).reverse

/-- Accumulator worker for whitespace tokenization. -/
def tokAux : List Char → List Char → List Tok
  | [], cur => if cur = [] then [] else [cur.reverse]
  | c :: rest, cur =>
    if isWs c then
      (if cur = [] then tokAux rest [] else cur.reverse :: tokAux rest [])
    else tokAux rest (c :: cur)

/-- Split on runs of whitespace, dropping empty pieces: the combined effect
of the newline/space collapsing and `split(/\s+/)` in `normalizeTranscript`. -/
def tokenizeWs (s : Str) : List Tok := tokAux s []

/-- Join a list of pieces with a separator (JavaScript `Array.join`). -/
def joinSep (sep : Str) : List Str → Str
  | [] => []
  | [t] => t
  | t :: t2 :: ts => t ++ sep ++ joinSep sep (t2 :: ts)

/-- The escape word of the normalizer, `"literal"`. -/
def litWord : Tok := ("literal").data

def qWord : Tok := ("question").data

def markWord : Tok := ("mark").data

def exWord : Tok := ("exclamation").data

def pointWord : Tok := ("point").data

/-- The one-word punctuation map of `normalizeTranscript`
(`{ period: '.', comma: ',', colon: ':', semicolon: ';' }`). -/
def oneWordSym (t : Tok) : Option Char :=
  if t = ("period").data then some '.'
  else if t = ("comma").data then some ','
  else if t = ("colon").data then some ':'
  else if t = ("semicolon").data then some ';'
  else none

/-- JavaScript `endsWith` for a single-character suffix. -/
def tokEndsWith (t : Tok) (c : Char) : Bool := t.getLast? = some c

/-- The `attach` closure of `normalizeTranscript`: append the symbol to the
most recently emitted token (the head of the reversed output list) unless
that token already ends with it; with no emitted token, emit the bare
symbol as its own token. -/
def attach (symbol : Char) : List Tok → List Tok
  | [] => [[symbol]]
  | last :: rest =>
    if tokEndsWith last symbol then last :: rest else (last ++ [symbol]) :: rest

/-- The `dropLiteralAndKeep` closure: pop the `"literal"` token and push the
spoken word unchanged. -/
def dropLiteralAndKeep (word : Tok) : List Tok → List Tok
  | [] => [word]
  | _ :: rest => word :: rest

/-- The `prevIsLiteral` test: the most recently emitted token lower-cases to
`"literal"`. -/
def prevIsLiteral (acc : List Tok) : Bool :=
  match acc with
  | p :: _ => lowerTok p = litWord
  | [] => false

/-- One-word-punctuation / default handling for a single token (the tail of
the loop body of `normalizeTranscript` after the two-word phrases). -/
def punctStep1 (cur : Tok) (acc : List Tok) : List Tok :=
  match oneWordSym (lowerTok cur) with
  | some sym => if prevIsLiteral acc then dropLiteralAndKeep cur acc else attach sym acc
  | none => cur :: acc

/-- The token loop of `normalizeTranscript`, with the emitted tokens carried
in reverse order (head = most recently emitted). -/
def punctPass : List Tok → List Tok → List Tok
  | [], acc => acc.reverse
  | [cur], acc => (punctStep1 cur acc).reverse
  | cur :: next :: rest2, acc =>
    let curL := lowerTok cur
    let nextL := lowerTok next
    if (curL = qWord ∧ nextL = markWord) ∨
       (curL = exWord ∧ (nextL = markWord ∨ nextL = pointWord)) then
      (if prevIsLiteral acc then
        punctPass rest2 (next :: dropLiteralAndKeep cur acc)
      else
        punctPass rest2 (attach (if curL = qWord then '?' else '!') acc))
    else punctPass (next :: rest2) (punctStep1 cur acc)

/-- A string begins with a (possibly empty) whitespace run followed by a
punctuation symbol.  A whitespace character is deleted by the regex
`\s+([.,!?;:])` exactly when this holds at its position. -/
def wsThenPunct : Str → Bool
  | [] => false
  | c :: rest => if isWs c then wsThenPunct rest else isPunctSym c

/-- The tidy-up `normalized.replace(/\s+([.,!?;:])/g, '$1')`: delete every whitespace
run that immediately precedes a punctuation symbol. -/
def fix1 : Str → Str
  | [] => []
  | c :: rest =>
    if isWs c ∧ wsThenPunct (c :: rest) then fix1 rest else c :: fix1 rest

/-- The tidy-up `normalized.replace(/([.,!?;:])([^\s"'\)\]}])/g, '$1 $2')`: insert a
space after a punctuation symbol followed by a non-excluded character,
resuming the scan after the consumed pair as the `g`-flag does. -/
def fix2 : Str → Str
  | [] => []
  | [c] => [c]
  | c :: d :: rest =>
    if isPunctSym c ∧ ¬ isAfterExcluded d then c :: ' ' :: d :: fix2 rest
    else c :: fix2 (d :: rest)

/-- The next two characters are both whitespace. -/
def wsWs : Str → Bool
  | c :: d :: _ => isWs c ∧ isWs d
  | _ => false

/-- Worker for `\s{2,}` collapsing; the flag records whether the previous
character was whitespace (i.e. we are inside an already-emitted run). -/
def collapseWsAux (prevWs : Bool) : Str → Str
  | [] => []
  | c :: rest =>
    if isWs c then
      (if prevWs then collapseWsAux true rest
       else if wsWs (c :: rest) then ' ' :: collapseWsAux true rest
       else c :: collapseWsAux true rest)
    else c :: collapseWsAux false rest

/-- The collapse `replace(/\s{2,}/g, ' ')`: each whitespace run of length at least two
becomes a single space; a lone whitespace character is kept as-is. -/
def collapseWs (s : Str) : Str := collapseWsAux false s

/-- The fixed placeholder written instead of an empty transcript. -/
def placeholderText : Str := ("[Empty transcript]").data

/-- The `normalizeTranscript` function of the `onAudioTranscribed` handler:
tokenize on whitespace, run the spoken-punctuation pass, rejoin with single
spaces, tidy spacing around punctuation, and fall back to the placeholder
when the result is empty. -/
def normalizeTranscript (s : Str) : Str :=
  let toks := tokenizeWs s
  if toks = [] then placeholderText
  else
    let joined := joinSep [' '] (punctPass toks [])
    let tidied := trimWs (collapseWs (fix2 (fix1 joined)))
    if tidied = [] then placeholderText else tidied

/-! ## Recognition results and transcript extraction -/

/-- One recognition alternative (`{ transcript, confidence }`); a missing
`transcript` field is `none`. -/
structure SpeechAlt where
  transcript : Option Str
deriving DecidableEq

/-- One segment of a recognition result (`{ alternatives: [...] }`). -/
structure SpeechSeg where
  alternatives : List SpeechAlt
deriving DecidableEq

/-- The extraction loop shared by the sync path of `onAudioUploaded` and by
`onAudioTranscribed`: take each segment's first alternative, keep its
transcript when it trims to something non-blank. -/
def extractParts : List SpeechSeg → List Str
  | [] => []
  | r :: rs =>
    match r.alternatives.head? with
    | some alt0 =>
      match alt0.transcript with
      | some t => if trimWs t = [] then extractParts rs else trimWs t :: extractParts rs
      | none => extractParts rs
    | none => extractParts rs

/-- The joined transcript `parts.join('\n\n').trim()`. -/
def rawJoined (results : List SpeechSeg) : Str :=
  trimWs (joinSep ['\n', '\n'] (extractParts results))

/-- The text written by the synchronous path of `onAudioUploaded` in
`src/transcode-transcribe/index.js` (lines 104-124): the raw joined
transcript, or the placeholder when blank.  No normalization. -/
def syncWrittenText (results : List SpeechSeg) : Str :=
  let text := rawJoined results
  if text = [] then placeholderText else text

/-- The text written by `onAudioTranscribed` in `src/unnamed/part_004`
(lines 41-55): the placeholder when blank, otherwise the normalizer's
output. -/
def asyncWrittenText (results : List SpeechSeg) : Str :=
  let text := rawJoined results
  if text = [] then placeholderText else normalizeTranscript text

/-- A concrete one-segment recognition result whose transcript contains a
spoken punctuation word. -/
def demoResults : List SpeechSeg :=
  [⟨[⟨some (("hello comma").data)⟩]⟩]

/-- The first alternative of a segment is absent or trims to blank. -/
def firstAltBlank (seg : SpeechSeg) : Bool :=
  match seg.alternatives.head? with
  | none => true
  | some a =>
    match a.transcript with
    | none => true
    | some t => trimWs t = []

/-! ## The superseded txtify revision (src/unnamed/part_000) -/

/-- Worker for `replace(/\s+/g, ' ')`. -/
def collapseAllWsAux (prevWs : Bool) : Str → Str
  | [] => []
  | c :: rest =>
    if isWs c then
      (if prevWs then collapseAllWsAux true rest else ' ' :: collapseAllWsAux true rest)
    else c :: collapseAllWsAux false rest

/-- The collapse `replace(/\s+/g, ' ')`: every whitespace run becomes a single space. -/
def collapseAllWs (s : Str) : Str := collapseAllWsAux false s

/-- The `txtify` revision collects the transcripts of ALL alternatives of a segment
(`if (a.transcript) lines.push(a.transcript)`; the guard is JavaScript
truthiness, so only a present non-empty transcript is kept). -/
def altLines : List SpeechAlt → List Str
  | [] => []
  | a :: rest =>
    match a.transcript with
    | some t => if t = [] then altLines rest else t :: altLines rest
    | none => altLines rest

/-- All transcript lines of a result, in `txtify`'s nested-loop order. -/
def txtifyLines : List SpeechSeg → List Str
  | [] => []
  | r :: rs => altLines r.alternatives ++ txtifyLines rs

/-- The text written by `txtify` in `src/unnamed/part_000` (lines 26-49):
collapse whitespace and trim each line, drop blank lines, join with
newlines - and write the result unconditionally, even when empty. -/
def txtifyPretty (results : List SpeechSeg) : Str :=
  joinSep ['\n'] (((txtifyLines results).map fun s => trimWs (collapseAllWs s)).filter fun s => s ≠ [])

/-! ## Output-name derivation (jsonToTxtName) -/

/-- Decimal digit (`\d`). -/
def isDigitCh (c : Char) : Bool := '0' ≤ c ∧ c ≤ '9'

/-- Characters on which the JavaScript `.` (no `s` flag) fails to match. -/
def isLineBreak (c : Char) : Bool :=
  c = '\n' || c = '\r' || c.toNat = 0x2028 || c.toNat = 0x2029

def transcriptPat : Str := ("_transcript").data

/-- Truncate at the leftmost case-insensitive occurrence of `_transcript`
after which `.*` can reach the end of the string (no line break follows),
as matched by `/(_transcript.*)?\.json$/i` inside the base name. -/
def cutAtTranscript : Str → Str
  | [] => []
  | c :: rest =>
    if transcriptPat.isPrefixOf (lowerTok (c :: rest)) ∧
       ((c :: rest).drop transcriptPat.length).all (fun d => ¬ isLineBreak d) then []
    else c :: cutAtTranscript rest

/-- The string ends (case-insensitively) with `.json`. -/
def endsWithJsonCi (s : Str) : Bool :=
  ((".json").data).isSuffixOf (lowerTok s)

/-- First `replace` of `jsonToTxtName`: when the name ends in `.json`,
drop that extension together with everything from a preceding
`_transcript` onwards. -/
def stripTranscriptJson (s : Str) : Str :=
  if endsWithJsonCi s then cutAtTranscript (s.take (s.length - 5)) else s

def resultPat : Str := ("_result-").data

/-- The string is exactly `_result-` (case-insensitively) followed by one
or more digits. -/
def isResultSuffix (s : Str) : Bool :=
  resultPat.isPrefixOf (lowerTok s) ∧
  (let rest := s.drop resultPat.length
   rest ≠ [] ∧ rest.all isDigitCh)

/-- Second `replace` of `jsonToTxtName`: strip a trailing
`_result-<digits>` segment (`/(_result-\d+)?$/i`), keeping the leftmost
such suffix match. -/
def cutResult : Str → Str
  | [] => []
  | c :: rest => if isResultSuffix (c :: rest) then [] else c :: cutResult rest

/-- The `jsonToTxtName` helper of `src/unnamed/part_004` (lines 161-170) and
`src/txtify-pd-transcriptions/index.js` (lines 67-76). -/
def jsonToTxtName (jsonName : Str) : Str :=
  cutResult (stripTranscriptJson (trimWs jsonName)) ++ (".txt").data

/-! ## Path selector (src/transcode-transcribe/index.js, lines 56-83) -/

inductive SttPath where
  | sync : SttPath
  | async : SttPath
deriving DecidableEq

structure RoutingDecision where
  path : SttPath
  model : Str
deriving DecidableEq

def speechModelLong : Str := ("latest_long").data

def speechModelShort : Str := ("latest_short").data

/-- The guard `Number.isFinite(seconds) ? await hasLongPause(...) : false`: the
silence detector is only consulted when the probed duration is finite. -/
def effectiveLongPause (seconds : Option ℚ) (detectorResult : Bool) : Bool :=
  match seconds with
  | some _ => detectorResult
  | none => false

/-- The routing decision of `onAudioUploaded`: sync exactly when the
duration is finite and at most the ceiling; on sync the model follows the
pause flag, on async the long model is used. -/
def selectRoute (seconds : Option ℚ) (detectorResult : Bool) (syncMax : ℚ) : RoutingDecision :=
  let longPause := effectiveLongPause seconds detectorResult
  let useSync :=
    match seconds with
    | some s => decide (s ≤ syncMax)
    | none => false
  if useSync then
    { path := SttPath.sync,
      model := if longPause then speechModelLong else speechModelShort }
  else
    { path := SttPath.async, model := speechModelLong }

/-! ## Asynchronous path effect traces -/

inductive AsyncEffect where
  | uploadFlac : AsyncEffect
  | startBatch : AsyncEffect
  | logSpeechError : AsyncEffect
deriving DecidableEq

inductive HandlerOutcome where
  | success : HandlerOutcome
  | raised : HandlerOutcome
deriving DecidableEq

/-- The async branch of `onAudioUploaded` in
`src/transcode-transcribe/index.js` (lines 130-161): upload the FLAC, then
start the batch job inside `try`/`catch`; a start failure is logged and the
handler returns normally. -/
def transcodeAsyncPath (startOk : Bool) : List AsyncEffect × HandlerOutcome :=
  if startOk then
    ([AsyncEffect.uploadFlac, AsyncEffect.startBatch], HandlerOutcome.success)
  else
    ([AsyncEffect.uploadFlac, AsyncEffect.logSpeechError], HandlerOutcome.success)

/-- The `onAudioUploaded` revision in `src/unnamed/part_003` (lines 33-52):
upload the FLAC, then start the batch job with no `catch`; a start failure
escapes the handler (only the `finally` cleanup runs). -/
def part003AsyncPath (startOk : Bool) : List AsyncEffect × HandlerOutcome :=
  if startOk then
    ([AsyncEffect.uploadFlac, AsyncEffect.startBatch], HandlerOutcome.success)
  else
    ([AsyncEffect.uploadFlac], HandlerOutcome.raised)

/-! ## Signed-URL endpoint -/

/-- The `name` query parameter: a string, or any non-string shape
(absent, repeated parameter array, object). -/
inductive QueryValue where
  | str : Str → QueryValue
  | notStr : QueryValue
deriving DecidableEq

/-- Substring test (JavaScript `includes`). -/
def hasSub (pat : Str) : Str → Bool
  | [] => pat = []
  | c :: rest => pat.isPrefixOf (c :: rest) || hasSub pat rest

/-- The `isSafeName` predicate of `src/unnamed/part_004` line 11: a string that does not
start with `/` and does not contain `..`. -/
def isSafeName : QueryValue → Bool
  | QueryValue.str s => ¬ (s.head? = some '/') ∧ ¬ hasSub (('.') :: ('.') :: []) s
  | QueryValue.notStr => false

def isStringQ : QueryValue → Bool
  | QueryValue.str _ => true
  | QueryValue.notStr => false

def qStartsSlash : QueryValue → Bool
  | QueryValue.str s => s.head? = some '/'
  | QueryValue.notStr => false

def qHasDotDot : QueryValue → Bool
  | QueryValue.str s => hasSub (('.') :: ('.') :: []) s
  | QueryValue.notStr => false

inductive StoreOp where
  | existsCheck : StoreOp
  | getSignedUrl : StoreOp
deriving DecidableEq

inductive RespTag where
  | missingBucketEnv : RespTag
  | badName : RespTag
  | notFound : RespTag
  | urlIssued : RespTag
deriving DecidableEq

structure SignResponse where
  status : Nat
  tag : RespTag
deriving DecidableEq

/-- The `sign` HTTP handler of `src/unnamed/part_004` (lines 176-200) and
`src/txtify-pd-transcriptions/index.js` (lines 79-103), as a function of
the bucket configuration, the `name` query value and whether the object
exists, returning the response together with the object-store operations
performed. -/
def signEndpoint (bucketConfigured : Bool) (nameParam : QueryValue)
    (objectExists : Bool) : SignResponse × List StoreOp :=
  if bucketConfigured = false then
    ({ status := 500, tag := RespTag.missingBucketEnv }, [])
  else if isSafeName nameParam = false then
    ({ status := 400, tag := RespTag.badName }, [])
  else if objectExists = false then
    ({ status := 404, tag := RespTag.notFound }, [StoreOp.existsCheck])
  else
    ({ status := 200, tag := RespTag.urlIssued }, [StoreOp.existsCheck, StoreOp.getSignedUrl])

/-! ## Theorems -/

/-- Helper: `normalizeTranscript` never returns the empty string - both
fallback branches return the placeholder. -/
theorem normalizeTranscript_ne_nil (s : Str) : normalizeTranscript s ≠ [] := by
  have hp : placeholderText ≠ [] := by decide
  unfold normalizeTranscript
  by_cases h1 : tokenizeWs s = []
  · simpa [h1] using hp
  · simp only [h1, if_false]
    by_cases h2 :
        trimWs (collapseWs (fix2 (fix1 (joinSep [' '] (punctPass (tokenizeWs s) []))))) = []
    · simpa [h2] using hp
    · simp [h2]

/-- Helper: when every segment's first alternative is absent or blank, the
extraction loop keeps nothing. -/
theorem extractParts_eq_nil (rs : List SpeechSeg)
    (h : ∀ seg ∈ rs, firstAltBlank seg = true) : extractParts rs = [] := by
  induction rs with
  | nil => rfl
  | cons r rest ih =>
    have hr : firstAltBlank r = true := h r (by simp)
    have hrest : extractParts rest = [] := ih fun seg hs => h seg (by simp [hs])
    rcases r with ⟨alts⟩
    cases alts with
    | nil => simpa [extractParts] using hrest
    | cons a arest =>
      cases ht : a.transcript with
      | none => simpa [extractParts, ht] using hrest
      | some t =>
        simp [firstAltBlank, ht] at hr
        simpa [extractParts, ht, hr] using hrest

/-- Claim C1: the path selector chooses the Async path exactly when the
probed duration is unknown or exceeds the sync ceiling, and otherwise the
Sync path; on the Sync path the long-form model is chosen exactly when the
silence flag is set, and when the duration is unknown the silence detector
result is discarded (the effective flag is `false`) and the long-form
model is used. -/
theorem selectRoute_spec (d : Option ℚ) (s : Bool) (c : ℚ) :
    ((selectRoute d s c).path = SttPath.async ↔ d = none ∨ ∃ v, d = some v ∧ c < v) ∧
    ((selectRoute d s c).path = SttPath.sync ↔ ∃ v, d = some v ∧ v ≤ c) ∧
    (∀ v, d = some v → v ≤ c →
      ((selectRoute d s c).model = speechModelLong ↔ s = true)) ∧
    (∀ v, d = some v → c < v → (selectRoute d s c).model = speechModelLong) ∧
    (d = none →
      effectiveLongPause d s = false ∧ (selectRoute d s c).model = speechModelLong) := by
  have hms : speechModelShort ≠ speechModelLong := by decide
  rcases d with _ | v
  · simp [selectRoute, effectiveLongPause]
  · by_cases hvc : v ≤ c
    · cases s <;>
        simp [selectRoute, effectiveLongPause, hvc, not_lt.mpr hvc, hms]
    · have hlt : c < v := lt_of_not_le hvc
      cases s <;> simp [selectRoute, effectiveLongPause, hvc, hlt]

/-- Claim C2 (code bug witness): re-running the normalizer on the output of
the literal-escape mechanism is not a no-op.  `"say literal comma now"`
normalizes to `"say comma now"`, whose plain word `"comma"` is then
re-converted to a symbol by a second application, contradicting the
idempotence stated by the spec and by the code's own comment. -/
theorem normalizeTranscript_not_idempotent :
    normalizeTranscript (("say literal comma now").data) = (("say comma now").data) ∧
    normalizeTranscript (normalizeTranscript (("say literal comma now").data))
      = (("say, now").data) ∧
    normalizeTranscript (normalizeTranscript (("say literal comma now").data))
      ≠ normalizeTranscript (("say literal comma now").data) :=
  ⟨by decide, by decide, by decide⟩

/-- Claim C3 (counterexample): the text the synchronous path writes is the
raw extracted text, not the normalizer's output - for a result whose
transcript is `"hello comma"` the sync path writes `"hello comma"`, while
the normalizer would produce `"hello,"`. -/
theorem sync_text_not_normalizer_output :
    syncWrittenText demoResults = (("hello comma").data) ∧
    normalizeTranscript (rawJoined demoResults) = (("hello,").data) ∧
    syncWrittenText demoResults ≠ normalizeTranscript (rawJoined demoResults) :=
  ⟨by decide, by decide, by decide⟩

/-- Claim C3 (amended): on the synchronous path the extractor and writer run
inline but the normalizer is not applied - the written text is the raw
joined transcript (placeholder when blank); the asynchronous JSON-trigger
handler is the one that writes the normalizer's output, and the two texts
differ in general. -/
theorem sync_raw_async_normalized :
    (∀ rs, syncWrittenText rs = rawJoined rs ∨
      (rawJoined rs = [] ∧ syncWrittenText rs = placeholderText)) ∧
    (∀ rs, rawJoined rs ≠ [] →
      asyncWrittenText rs = normalizeTranscript (rawJoined rs)) ∧
    asyncWrittenText demoResults ≠ syncWrittenText demoResults := by
  refine ⟨?_, ?_, ?_⟩
  · intro rs
    by_cases h : rawJoined rs = []
    · exact Or.inr ⟨h, by simp [syncWrittenText, h]⟩
    · exact Or.inl (by simp [syncWrittenText, h])
  · intro rs h
    simp [asyncWrittenText, h]
  · decide

/-- Claim C4: the escape word `"literal"` is removed and the following
punctuation word `"comma"` is kept as a plain word. -/
theorem normalizeTranscript_literal_escape :
    normalizeTranscript (("say literal comma now").data) = (("say comma now").data) := by
  decide

/-- Claim C5: one-token and two-token punctuation phrases are converted and
attached to the preceding word with single-space joining. -/
theorem normalizeTranscript_basic :
    normalizeTranscript (("hello comma how are you question mark").data)
      = (("hello, how are you?").data) := by
  decide

/-- Claim C6 (counterexample): with two consecutive `"comma"` tokens the
second converted symbol is not appended at all - the token already ends
with `','`, so the duplicate is dropped and the output is `"a,"`, not
`"a,,"`. -/
theorem attach_duplicate_symbol_dropped :
    normalizeTranscript (("a comma comma").data) = (("a,").data) ∧
    normalizeTranscript (("a comma comma").data) ≠ (("a,,").data) :=
  ⟨by decide, by decide⟩

/-- Claim C6 (amended): a converted symbol only ever modifies the most
recently emitted token, appending to it unless that token already ends
with the same symbol (then the duplicate is dropped); with no emitted
token the bare symbol becomes its own token.  Consecutive punctuation
words therefore pile their symbols onto one token, and a punctuation word
at the start of the input emits the bare symbol. -/
theorem attach_behavior :
    (∀ sym : Char, attach sym [] = [[sym]]) ∧
    (∀ (sym : Char) (t : Tok) (ts : List Tok),
      attach sym (t :: ts) = (if t.getLast? = some sym then t else t ++ [sym]) :: ts) ∧
    (∀ (cur : Tok) (sym : Char) (acc : List Tok),
      oneWordSym (lowerTok cur) = some sym → prevIsLiteral acc = false →
      punctStep1 cur acc = attach sym acc) ∧
    punctPass [("a").data, ("comma").data, ("period").data] [] = [(("a,.").data)] ∧
    punctPass [("comma").data, ("then").data] [] = [((",").data), (("then").data)] := by
  refine ⟨fun sym => rfl, ?_, ?_, by decide, by decide⟩
  · intro sym t ts
    by_cases h : t.getLast? = some sym <;> simp [attach, tokEndsWith, h]
  · intro cur sym acc h1 h2
    simp [punctStep1, h1, h2]

/-- Claim C7 (counterexample): the superseded `txtify` revision writes the
joined pretty text unconditionally; for a result with no transcripts that
text is the empty string, not the placeholder. -/
theorem txtify_writes_empty_string :
    txtifyPretty [] = ([] : Str) ∧ txtifyPretty [] ≠ placeholderText :=
  ⟨rfl, by decide⟩

/-- Claim C7 (amended): in the `onAudioTranscribed` handler, a result in
which every segment's first alternative is absent or blank yields the
fixed placeholder, and the written text is never the empty string; the
superseded `txtify` revision does not share this invariant. -/
theorem onAudioTranscribed_placeholder :
    (∀ rs, (∀ seg ∈ rs, firstAltBlank seg = true) →
      asyncWrittenText rs = placeholderText) ∧
    (∀ rs, asyncWrittenText rs ≠ []) := by
  constructor
  · intro rs h
    have hnil := extractParts_eq_nil rs h
    simp [asyncWrittenText, rawJoined, hnil, joinSep, trimWs]
  · intro rs
    unfold asyncWrittenText
    by_cases h : rawJoined rs = []
    · simp only [h, if_true]
      decide
    · simp only [h, if_false]
      exact normalizeTranscript_ne_nil _

/-- Claim C8: the output-name derivation strips the recognizer-added
`_transcript...` and `_result-<digits>` suffixes and replaces `.json` by
`.txt`. -/
theorem jsonToTxtName_examples :
    jsonToTxtName (("clip_transcript_9f3a_result-2.json").data) = (("clip.txt").data) ∧
    jsonToTxtName (("clip.json").data) = (("clip.txt").data) :=
  ⟨by decide, by decide⟩

/-- Claim C9 (counterexample): in the `part_003` revision of
`onAudioUploaded` the batch-start call has no catch - when it fails the
handler raises after the transcoded audio has already been uploaded. -/
theorem part003_start_failure_raises :
    (part003AsyncPath false).2 = HandlerOutcome.raised ∧
    (part003AsyncPath false).1 = [AsyncEffect.uploadFlac] :=
  ⟨rfl, rfl⟩

/-- Claim C9 (amended): in `src/transcode-transcribe/index.js` the async
path always returns success, the FLAC upload happens before the job-start
attempt, and a start failure leaves only the upload plus a logged error. -/
theorem transcode_async_start_failure_swallowed (startOk : Bool) :
    (transcodeAsyncPath startOk).2 = HandlerOutcome.success ∧
    (transcodeAsyncPath startOk).1.head? = some AsyncEffect.uploadFlac ∧
    (startOk = false →
      (transcodeAsyncPath startOk).1 =
        [AsyncEffect.uploadFlac, AsyncEffect.logSpeechError]) := by
  cases startOk <;> simp [transcodeAsyncPath]

/-- Claim C10: with the bucket configured, a request whose `name` query
value is not a string, starts with `/`, or contains `..` is answered with
HTTP 400 (`bad name`) and no object-store operation is performed. -/
theorem sign_rejects_bad_name (q : QueryValue) (ex : Bool)
    (h : isStringQ q = false ∨ qStartsSlash q = true ∨ qHasDotDot q = true) :
    (signEndpoint true q ex).1.status = 400 ∧
    (signEndpoint true q ex).1.tag = RespTag.badName ∧
    (signEndpoint true q ex).2 = [] := by
  have hun : isSafeName q = false := by
    rcases q with s | _
    · rcases h with h | h | h
      · simp [isStringQ] at h
      · simp only [qStartsSlash, decide_eq_true_eq] at h
        simp [isSafeName, h]
      · simp only [qHasDotDot] at h
        simp [isSafeName, h]
    · rfl
  simp [signEndpoint, hun]

/-- Claim C10 (witness): the concrete name `"../x"` is rejected with 400
and no store operation. -/
theorem sign_rejects_bad_name_witness :
    (signEndpoint true (QueryValue.str (("../x").data)) true).1.status = 400 ∧
    (signEndpoint true (QueryValue.str (("../x").data)) true).1.tag = RespTag.badName ∧
    (signEndpoint true (QueryValue.str (("../x").data)) true).2 = [] :=
  sign_rejects_bad_name (QueryValue.str (("../x").data)) true (Or.inr (Or.inr (by decide)))
